import Mathlib

/-!
Verification development for the `pr-fixer` command-line tool.

The TypeScript sources embedded here:
- `src/parser.ts` : `parsePRUrl`, a regex-based PR-URL parser (fully implemented).
- `src/types.ts`  : the `ParsedPRUrl`, `PRComment` and `CommentProcessResult` records.
- `src/index.ts`  : the commander-based orchestrator (`program.action`).
- `src/github.ts` and `src/claude.ts` declare `checkoutPRBranch`, `fetchPRComments`
  and `processCommentWithClaude` but their bodies are unimplemented stubs; where a
  property depends on them, the corresponding behaviour is modelled from the
  design document (marked `Modelled from the spec:` below) and the stubs are
  represented as parameters of an explicit external-world environment.
-/

/-! ## URL parser (src/parser.ts)

The source matches the URL against the regex
`^https?:\/\/(?:www\.)?github\.com\/([^\/]+)\/([^\/]+)\/pull\/(\d+)\/?$`
and then checks `parseInt(prNumberStr, 10)` for `isNaN` / `<= 0`.
The regex is embedded as a deterministic character-list matcher: each literal
piece of the pattern is a character-list constant, `[^/]+` segments are cut at
the first `'/'`, and the optional `s`, `www.` and trailing `/` are taken
greedily (equivalent to the regex, since in each case the following literal
cannot begin with the optional character). -/

/-- The literal `http` of the regex. -/
def httpChars : List Char := ['h', 't', 't', 'p']

/-- The literal `://` of the regex. -/
def schemeSepChars : List Char := [':', '/', '/']

/-- The literal `www.` of the optional group `(?:www\.)?`. -/
def wwwChars : List Char := ['w', 'w', 'w', '.']

/-- The literal `github.com/` of the regex. -/
def hostChars : List Char := ['g', 'i', 't', 'h', 'u', 'b', '.', 'c', 'o', 'm', '/']

/-- The literal `pull/` of the regex. -/
def pullChars : List Char := ['p', 'u', 'l', 'l', '/']

/-- Strip an exact literal from the front of the input: `some` of the remainder
when `pat` leads the input, `none` otherwise. -/
def dropLit (pat s : List Char) : Option (List Char) :=
  match pat, s with
  | [], rest => some rest
  | _ :: _, [] => none
  | p :: ps, c :: cs => if p = c then dropLit ps cs else none

/-- Cut a `[^/]+` capture group: the characters before the first `'/'` together
with the remainder after that `'/'`; `none` when no `'/'` occurs. (Emptiness of
the group is checked by the caller.) -/
def takeSeg (s : List Char) : Option (List Char × List Char) :=
  match s with
  | [] => none
  | c :: cs =>
    if c = '/' then some ([], cs)
    else
      match takeSeg cs with
      | some (seg, rest) => some (c :: seg, rest)
      | none => none

/-- `true` when the list contains no `'/'` — the content condition of a
`[^/]+` group. -/
def noSlash (s : List Char) : Bool :=
  match s with
  | [] => true
  | c :: cs => !(c == '/') && noSlash cs

/-- Remove the optional trailing `/` of `\d+\/?$`. -/
def dropTrailSlash (s : List Char) : List Char :=
  if s.getLast? = some '/' then s.dropLast else s

/-- Numeric value of one decimal digit character. -/
def digitVal (c : Char) : Nat := c.toNat - '0'.toNat

/-- The exact mathematical value of a decimal digit string. -/
def digitsVal (ds : List Char) : Nat :=
  ds.foldl (fun acc c => 10 * acc + digitVal c) 0

/-- Fuel-driven binary logarithm by repeated halving, structurally recursive
so the kernel can evaluate it; `log2Fuel fuel n` equals the floor of the
base-2 logarithm of `n` whenever `2 ^ fuel > n`, and is an underestimate of
it otherwise (which keeps the lower bound `2 ^ log2Fuel fuel n ≤ n` valid
for every fuel). -/
def log2Fuel : Nat → Nat → Nat
  | 0, _ => 0
  | fuel + 1, n => if n < 2 then 0 else log2Fuel fuel (n / 2) + 1

/-- Round a natural number to the nearest IEEE-754 double, ties to even, as
ECMAScript `parseInt` does with the exact mathematical integer it reads.
Every natural below `2 ^ 53` is exactly representable and returned as is; a
larger value is rounded at the 53-bit significand boundary: with
`e = log2 n - 52`, the value is rounded to the nearest multiple of `2 ^ e`,
a tie going to the even quotient. The result of rounding a natural is itself
a natural, which this function returns exactly. `fuel` must exceed the bit
length of `n` for the logarithm to be exact (the caller below guarantees
this); JS overflows to Infinity only beyond the largest finite double, which
would need a PR number of more than 308 digits — the Nat model keeps such
values finite, which no theorem below depends on: acceptance is unaffected
(both are positive) and the value-exactness results restrict to `< 2 ^ 53`. -/
def roundDoubleFuel (fuel n : Nat) : Nat :=
  if n < 2 ^ 53 then n
  else if n % 2 ^ (log2Fuel fuel n - 52) < 2 ^ (log2Fuel fuel n - 53) then
    n / 2 ^ (log2Fuel fuel n - 52) * 2 ^ (log2Fuel fuel n - 52)
  else if 2 ^ (log2Fuel fuel n - 53) < n % 2 ^ (log2Fuel fuel n - 52) then
    (n / 2 ^ (log2Fuel fuel n - 52) + 1) * 2 ^ (log2Fuel fuel n - 52)
  else if n / 2 ^ (log2Fuel fuel n - 52) % 2 = 0 then
    n / 2 ^ (log2Fuel fuel n - 52) * 2 ^ (log2Fuel fuel n - 52)
  else (n / 2 ^ (log2Fuel fuel n - 52) + 1) * 2 ^ (log2Fuel fuel n - 52)

/-- `parseInt(ds, 10)` on an all-digit string: the exact decimal value
rounded to the nearest IEEE-754 double (the JS `number` the source stores).
The fuel `4 * ds.length + 4` exceeds the bit length of the value, since
`digitsVal ds < 10 ^ ds.length ≤ 2 ^ (4 * ds.length)`, so the logarithm in
the rounding step is exact. -/
def jsParseInt (ds : List Char) : Nat :=
  roundDoubleFuel (4 * ds.length + 4) (digitsVal ds)

/-- The regex match of `parsePRUrl`: on success, the three capture groups
(owner, repo, PR-number digits). -/
def matchPRUrl (s : List Char) : Option (List Char × List Char × List Char) :=
  match dropLit httpChars s with
  | none => none
  | some s1 =>
    match dropLit schemeSepChars ((dropLit ['s'] s1).getD s1) with
    | none => none
    | some s3 =>
      match dropLit hostChars ((dropLit wwwChars s3).getD s3) with
      | none => none
      | some s5 =>
        match takeSeg s5 with
        | none => none
        | some (owner, s6) =>
          if owner = [] then none
          else
            match takeSeg s6 with
            | none => none
            | some (repo, s7) =>
              if repo = [] then none
              else
                match dropLit pullChars s7 with
                | none => none
                | some s8 =>
                  if dropTrailSlash s8 = [] then none
                  else if (dropTrailSlash s8).all Char.isDigit then
                    some (owner, repo, dropTrailSlash s8)
                  else none

/-- Parsed PR URL information (src/types.ts, `ParsedPRUrl`). -/
structure ParsedPRUrl where
  owner : String
  repo : String
  prNumber : Nat
deriving Repr, DecidableEq

/-- `parsePRUrl` from src/parser.ts. On a regex failure it throws the
invalid-URL error; on a match, the digits group is converted with
`parseInt(_, 10)` — the exact decimal value rounded to the nearest double,
modelled by `jsParseInt` — and rejected when `<= 0`. Since the group is
`\d+`, `parseInt` cannot yield `NaN` and the value is a nonnegative number,
so the JS check `isNaN(prNumber) || prNumber <= 0` is exactly
`prNumber = 0` (rounding maps a value to 0 only when it is 0). -/
def parsePRUrl (url : String) : Except String ParsedPRUrl :=
  match matchPRUrl url.data with
  | none =>
    Except.error ("Invalid GitHub PR URL: " ++ url ++
      ". Expected format: https://github.com/owner/repo/pull/123")
  | some (owner, repo, ds) =>
    let prNumber := jsParseInt ds
    if prNumber = 0 then Except.error ("Invalid PR number in URL: " ++ url)
    else Except.ok ⟨String.mk owner, String.mk repo, prNumber⟩

/-- `true` exactly when `parsePRUrl` returns a parsed reference. -/
def parseSucceeds (url : String) : Bool :=
  match parsePRUrl url with
  | Except.ok _ => true
  | Except.error _ => false

/-! ## The accepted grammar, stated from the spec

The spec describes the accepted language as
`scheme://[www.]host/owner/repo/pull/<digits>[/]` with a positive PR number;
for this hosting service the scheme is `http` or `https` and the host is
`github.com`. The grammar is stated as an existential decomposition of the
input, to be compared with the source-derived matcher above. -/

/-- Assemble the character data of a PR URL from its grammar components
(scheme choice, optional `www.`, owner, repo, digit group, optional trailing
slash), right-nested so each component is explicit. -/
def mkUrlData (ssl www : Bool) (owner repo digits : List Char) (slash : Bool) : List Char :=
  httpChars ++ ((if ssl then ['s'] else []) ++ (schemeSepChars ++
    ((if www then wwwChars else []) ++ (hostChars ++
      (owner ++ ('/' :: (repo ++ ('/' :: (pullChars ++
        (digits ++ (if slash then ['/'] else [])))))))))))

/-- The PR URL string with the given grammar components. -/
def mkPRUrl (ssl www : Bool) (owner repo digits : List Char) (slash : Bool) : String :=
  String.mk (mkUrlData ssl www owner repo digits slash)

/-- Side conditions of the grammar: owner and repo are nonempty and
slash-free, the digit group is nonempty, all digits, and has positive value. -/
def validParts (owner repo digits : List Char) : Bool :=
  !owner.isEmpty && noSlash owner && !repo.isEmpty && noSlash repo &&
  !digits.isEmpty && digits.all Char.isDigit && digitsVal digits != 0

/-- A string belongs to the accepted PR-URL grammar of the spec: it decomposes
as `scheme://[www.]github.com/owner/repo/pull/<digits>[/]` with valid
components. -/
def SpecValidPRUrl (url : String) : Prop :=
  ∃ (ssl www slash : Bool) (owner repo digits : List Char),
    validParts owner repo digits = true ∧
    url.data = mkUrlData ssl www owner repo digits slash

/-- Modelled from the spec: `format`, the inverse of `parse` used by the
round-trip property of §8 (no formatter exists in the source). It renders the
canonical URL of a parsed reference. -/
def formatPRUrl (p : ParsedPRUrl) : String :=
  "https://github.com/" ++ p.owner ++ "/" ++ p.repo ++ "/pull/" ++ toString p.prNumber

/-- Modelled from the spec: `normalizedForm`, the canonical form of an accepted
PR URL (no such function exists in the source). The scheme is forced to
`https`, `www.` and the trailing slash are dropped, and the PR number is
rendered without leading zeros; on a string outside the grammar there is no
normalized form. -/
def normalizedForm (url : String) : Option String :=
  match matchPRUrl url.data with
  | some (owner, repo, ds) =>
    some ("https://github.com/" ++ String.mk owner ++ "/" ++ String.mk repo ++
      "/pull/" ++ toString (digitsVal ds))
  | none => none

/-! ## Shared data model (src/types.ts) -/

/-- A review comment from a GitHub PR (src/types.ts, `PRComment`). -/
structure PRComment where
  id : Nat
  body : String
  path : String
  line : Option Nat
  diffHunk : String
  user : String
  createdAt : String
deriving Repr, DecidableEq

/-- Result of processing a comment with Claude (src/types.ts,
`CommentProcessResult`); `commitSha` is the optional field `commitSha?`. -/
structure CommentProcessResult where
  commentId : Nat
  fixed : Bool
  commitSha : Option String
  message : String
deriving Repr, DecidableEq

/-! ## Comment Processor (src/claude.ts)

`processCommentWithClaude` is an unimplemented stub, so the per-comment state
machine of spec §4.4 is modelled from the spec below: the agent is invoked
once, its textual output is scanned for one of the two sentinel markers, and
the head commit before and after the invocation decides between the
`Committed`, `Skipped` and `Failed` terminal states. -/

/-- Leading-match check used by the substring scan. -/
def leadsWith (pat s : List Char) : Bool :=
  match pat, s with
  | [], _ => true
  | _ :: _, [] => false
  | p :: ps, c :: cs => p == c && leadsWith ps cs

/-- Substring containment check for the sentinel markers. -/
def hasSub (pat : List Char) (s : List Char) : Bool :=
  match s with
  | [] => leadsWith pat []
  | _ :: cs => leadsWith pat s || hasSub pat cs

/-- Modelled from the spec: the sentinel token the agent emits after making
and committing changes. -/
def changesMadeMarker : List Char := "RESULT: CHANGES_MADE".data

/-- Modelled from the spec: the sentinel token the agent emits when no change
is needed. -/
def noChangesMarker : List Char := "RESULT: NO_CHANGES_NEEDED".data

/-- What the external coding agent did on one invocation: whether it exited
normally, its full textual output, and the repository head commit after it
returned. -/
structure AgentResponse where
  exitOk : Bool
  output : String
  headAfter : String
deriving Repr, DecidableEq

/-- Terminal state of the per-comment state machine
(`Pending → Invoking → \x7bCommitted, Skipped, Failed\x7d`). -/
inductive CommentTerminal where
  | committed (commitId : String)
  | skipped
  | failed (err : String)
deriving Repr, DecidableEq

/-- Modelled from the spec (§4.4): interpret the agent response against the
head commit recorded before the invocation. A changes-made marker with an
unchanged head is a `CommitNotFoundError` failure, not a success; a
no-changes marker requires the head to be unchanged; an abnormal exit or a
missing marker is a failure. -/
def interpretAgentOutput (headBefore : String) (resp : AgentResponse) : CommentTerminal :=
  if resp.exitOk = false then CommentTerminal.failed "agent invocation exited abnormally"
  else if hasSub changesMadeMarker resp.output.data then
    if resp.headAfter = headBefore then
      CommentTerminal.failed "CommitNotFoundError: changes-made marker but head commit unchanged"
    else CommentTerminal.committed resp.headAfter
  else if hasSub noChangesMarker resp.output.data then
    if resp.headAfter = headBefore then CommentTerminal.skipped
    else CommentTerminal.failed "head commit changed without a changes-made marker"
  else CommentTerminal.failed "agent output contains neither result marker"

/-- Per-comment processing outcome of the spec data model (§3):
`changed`, an optional commit identifier, and a note. -/
structure ProcessingOutcome where
  commentId : Nat
  changed : Bool
  commitId : Option String
  note : String
deriving Repr, DecidableEq

/-- Record a terminal state as a `ProcessingOutcome`. -/
def outcomeOf (commentId : Nat) (t : CommentTerminal) : ProcessingOutcome :=
  match t with
  | CommentTerminal.committed sha => ⟨commentId, true, some sha, "fixed and committed"⟩
  | CommentTerminal.skipped => ⟨commentId, false, none, "no changes needed"⟩
  | CommentTerminal.failed err => ⟨commentId, false, none, err⟩

/-- Modelled from the spec: the Comment Processor for a single comment —
one agent invocation, then classification of its response into an outcome. -/
def processComment (commentId : Nat) (headBefore : String) (resp : AgentResponse) : ProcessingOutcome :=
  outcomeOf commentId (interpretAgentOutput headBefore resp)

/-! ## Comment Fetcher (src/github.ts)

`fetchPRComments` is an unimplemented stub, so `fetchAll` and the three
category fetchers are modelled from spec §4.3 over a fixed PR snapshot:
discussion comments, then review summaries with empty bodies filtered out,
then inline comments with the line number falling back to the original
line. -/

/-- State of a formal review (spec §3, `ReviewSummaryComment.state`). -/
inductive ReviewState where
  | approved
  | changesRequested
  | commented
deriving Repr, DecidableEq

/-- A discussion comment of the PR conversation thread. -/
structure DiscussionComment where
  id : Nat
  author : String
  body : String
  createdAt : String
deriving Repr, DecidableEq

/-- A review-summary comment. -/
structure ReviewSummaryComment where
  id : Nat
  author : String
  body : String
  createdAt : String
  state : ReviewState
deriving Repr, DecidableEq

/-- An inline comment as the hosting API reports it: the live line is
nullable, the original line is the fallback. -/
structure RawInlineComment where
  id : Nat
  author : String
  body : String
  createdAt : String
  path : String
  line : Option Nat
  originalLine : Nat
deriving Repr, DecidableEq

/-- An inline comment after fetch-time normalization (line resolved). -/
structure NormInlineComment where
  id : Nat
  author : String
  body : String
  createdAt : String
  path : String
  line : Nat
deriving Repr, DecidableEq

/-- The unified comment type: a tagged union over the three variants. -/
inductive FetchedComment where
  | discussion (c : DiscussionComment)
  | reviewSummary (c : ReviewSummaryComment)
  | inlineCode (c : NormInlineComment)
deriving Repr, DecidableEq

/-- A fixed PR snapshot: the three comment categories as the hosting API
returns them, each in source API order. -/
structure PRSnapshot where
  discussion : List DiscussionComment
  reviews : List ReviewSummaryComment
  inlines : List RawInlineComment
deriving Repr, DecidableEq

/-- Resolve the line of an inline comment, falling back to the original
line when the live line is unset. -/
def normalizeInline (c : RawInlineComment) : NormInlineComment :=
  ⟨c.id, c.author, c.body, c.createdAt, c.path, c.line.getD c.originalLine⟩

/-- Modelled from the spec: fetch the discussion comments of the snapshot. -/
def fetchDiscussion (s : PRSnapshot) : List FetchedComment :=
  s.discussion.map FetchedComment.discussion

/-- Modelled from the spec: fetch the review summaries, filtering out the
entries with an empty body. -/
def fetchReviews (s : PRSnapshot) : List FetchedComment :=
  (s.reviews.filter (fun r => !(r.body == ""))).map FetchedComment.reviewSummary

/-- Modelled from the spec: fetch the inline comments, resolving lines. -/
def fetchInlines (s : PRSnapshot) : List FetchedComment :=
  s.inlines.map (fun c => FetchedComment.inlineCode (normalizeInline c))

/-- Modelled from the spec: `fetchAll` calls the three fetchers in the fixed
order discussion → review summaries → inline and concatenates the results. -/
def fetchAll (s : PRSnapshot) : List FetchedComment :=
  fetchDiscussion s ++ fetchReviews s ++ fetchInlines s

/-- Category rank of a unified comment: discussion `0`, review summary `1`,
inline `2`. -/
def categoryRank (c : FetchedComment) : Nat :=
  match c with
  | FetchedComment.discussion _ => 0
  | FetchedComment.reviewSummary _ => 1
  | FetchedComment.inlineCode _ => 2

/-! ## Orchestrator (src/index.ts)

The commander `program.action` is embedded as a function from the CLI
options and an external-world environment to the run trace: the sequence of
observable events (external invocations and console lines), the process exit
code, and the final head commit of the working directory. The three external
operations are unimplemented stubs in the source, so their responses are
parameters of the environment; the head commit changes only at a checkout or
an agent invocation, the only operations that touch the repository. -/

/-- A declared commander option of the CLI (flags and description), from the
`program.option` calls of src/index.ts. -/
structure CliOption where
  flags : String
  description : String
deriving Repr, DecidableEq

/-- The options that `program` declares in src/index.ts: exactly `--dry-run`
and `-d, --directory`. -/
def programOptions : List CliOption :=
  [⟨"--dry-run", "Preview without making changes"⟩,
   ⟨"-d, --directory <path>", "Path to the repository directory (defaults to current directory)"⟩]

/-- The parsed options record of the action callback
(`\x7b dryRun?: boolean; directory?: string \x7d`); an absent `dryRun` is `false`. -/
structure CliOptions where
  dryRun : Bool
  directory : Option String
deriving Repr, DecidableEq

/-- Responses of the external world consumed by one run: the current working
directory, whether the working directory holds uncommitted changes (never
consulted by the implemented orchestrator), and the results of the checkout,
fetch and per-comment agent invocations together with the head commits they
leave behind. -/
structure ExternalWorld where
  cwd : String
  workingDirDirty : Bool
  checkoutRes : Except String Unit
  checkoutHead : String
  fetchRes : Except String (List PRComment)
  agentRes : Nat → Except String CommentProcessResult
  agentHead : Nat → String → String

/-- Observable events of a run. `gitPush` is expressible but — as the
theorems below show — never emitted. -/
inductive Event where
  | checkoutBranch (prNumber : Nat)
  | fetchComments (owner repo : String) (prNumber : Nat)
  | agentInvoke (idx : Nat) (commentId : Nat)
  | gitPush
  | printOut (msg : String)
  | printErr (msg : String)
deriving Repr, DecidableEq

/-- Result of one run: the event trace, the process exit code, and the final
head commit. -/
structure RunResult where
  events : List Event
  exitCode : Nat
  finalHead : String
deriving Repr, DecidableEq

/-- `comment.body.slice(0, 100)` of the progress line. -/
def sliceBody (s : String) : String := String.mk (s.data.take 100)

/-- The `for (const comment of comments)` loop of the action: log the comment;
unless in dry-run, invoke the agent and log its result. A thrown agent error
stops the loop and is returned to the surrounding `try`; the head commit is
threaded through the successful invocations. -/
def processLoop (w : ExternalWorld) (dryRun : Bool) :
    List PRComment → Nat → String → List Event × Option String × String
  | [], _, head => ([], none, head)
  | c :: rest, i, head =>
    let logs := [Event.printOut ("Processing comment by " ++ c.user ++ ":"),
                 Event.printOut ("  " ++ sliceBody c.body ++ "...")]
    if dryRun then
      let r := processLoop w dryRun rest (i + 1) head
      (logs ++ r.1, r.2.1, r.2.2)
    else
      match w.agentRes i with
      | Except.error e => (logs ++ [Event.agentInvoke i c.id], some e, head)
      | Except.ok res =>
        let resLog :=
          if res.fixed then
            Event.printOut ("  fixed and committed: " ++ res.commitSha.getD "undefined")
          else Event.printOut ("  No changes needed: " ++ res.message)
        let r := processLoop w dryRun rest (i + 1) (w.agentHead i head)
        (logs ++ [Event.agentInvoke i c.id] ++ [resLog] ++ r.1, r.2.1, r.2.2)

/-- The tail of the action after the checkout step: fetch the comments (a
fetch failure is thrown to the `catch`), then run the comment loop; a loop
error reaches the `catch`, which prints it and exits with code 1, otherwise
the run prints the closing line and exits 0. -/
def afterCheckout (p : ParsedPRUrl) (opts : CliOptions) (w : ExternalWorld)
    (pre : List Event) (head : String) : RunResult :=
  match w.fetchRes with
  | Except.error e =>
    ⟨pre ++ [Event.fetchComments p.owner p.repo p.prNumber,
             Event.printErr ("Error: " ++ e)], 1, head⟩
  | Except.ok comments =>
    let pre2 := pre ++ [Event.fetchComments p.owner p.repo p.prNumber,
      Event.printOut ("Found " ++ toString comments.length ++ " review comments")]
    match processLoop w opts.dryRun comments 0 head with
    | (evs, some e, h1) => ⟨pre2 ++ evs ++ [Event.printErr ("Error: " ++ e)], 1, h1⟩
    | (evs, none, h1) =>
      ⟨pre2 ++ evs ++ [Event.printOut "Done! Review the commits and push when ready."], 0, h1⟩

/-- The `program.action` callback of src/index.ts: parse the URL, check out
the PR branch unless `--dry-run`, fetch the comments and process them; any
thrown error is caught once at the top, printed, and the process exits with
code 1. `h0` is the head commit of the working directory when the run
starts. -/
def runAction (prUrl : String) (opts : CliOptions) (w : ExternalWorld) (h0 : String) : RunResult :=
  let pre := [Event.printOut ("Processing PR: " ++ prUrl),
              Event.printOut ("Repository directory: " ++ opts.directory.getD w.cwd)]
  match parsePRUrl prUrl with
  | Except.error msg => ⟨pre ++ [Event.printErr ("Error: " ++ msg)], 1, h0⟩
  | Except.ok p =>
    let pre2 := pre ++ [Event.printOut ("Parsed: " ++ p.owner ++ "/" ++ p.repo ++ "#" ++
      toString p.prNumber)]
    if opts.dryRun then afterCheckout p opts w pre2 h0
    else
      match w.checkoutRes with
      | Except.error e =>
        ⟨pre2 ++ [Event.checkoutBranch p.prNumber, Event.printErr ("Error: " ++ e)], 1, h0⟩
      | Except.ok _ =>
        afterCheckout p opts w
          (pre2 ++ [Event.checkoutBranch p.prNumber, Event.printOut "Checked out PR branch"])
          w.checkoutHead

/-! ### Event classifiers -/

/-- `true` on a branch-checkout event. -/
def isCheckoutEvent (e : Event) : Bool :=
  match e with
  | Event.checkoutBranch _ => true
  | _ => false

/-- `true` on an agent invocation event. -/
def isAgentEvent (e : Event) : Bool :=
  match e with
  | Event.agentInvoke _ _ => true
  | _ => false

/-- `true` on an event that can change the working directory head commit. -/
def touchesRepo (e : Event) : Bool := isCheckoutEvent e || isAgentEvent e

/-- `true` on a push event. -/
def isPushEvent (e : Event) : Bool :=
  match e with
  | Event.gitPush => true
  | _ => false

/-- `true` on an error-print line. -/
def isErrPrint (e : Event) : Bool :=
  match e with
  | Event.printErr _ => true
  | _ => false

/-- `true` on a comment-fetch event. -/
def isFetchEvent (e : Event) : Bool :=
  match e with
  | Event.fetchComments _ _ _ => true
  | _ => false

/-- A push occurs somewhere in the trace. -/
def hasPush (evs : List Event) : Bool := evs.any isPushEvent

/-- An error line is printed somewhere in the trace. -/
def hasErrPrint (evs : List Event) : Bool := evs.any isErrPrint

/-- A comment fetch occurs somewhere in the trace. -/
def hasFetch (evs : List Event) : Bool := evs.any isFetchEvent

/-- The agent is invoked for loop index `i` somewhere in the trace. -/
def hasAgentIdx (evs : List Event) (i : Nat) : Bool :=
  evs.any (fun e =>
    match e with
    | Event.agentInvoke j _ => j == i
    | _ => false)

/-- The console lines the loop prints for a comment skipped by dry-run. -/
def dryLogs : List PRComment → List Event
  | [] => []
  | c :: rest =>
    Event.printOut ("Processing comment by " ++ c.user ++ ":") ::
      Event.printOut ("  " ++ sliceBody c.body ++ "...") :: dryLogs rest

/-! ## Concrete fixtures used by the closed evaluation theorems -/

/-- A sample fetched review comment. -/
def sampleComment (n : Nat) : PRComment :=
  ⟨n, "please fix the loop bound", "src/widget.ts", some 42, "@@ hunk @@", "alice", "2024-01-02"⟩

/-- A successful agent result for a comment. -/
def sampleFixed : CommentProcessResult := ⟨10, true, some "sha-fix", "fixed"⟩

/-- An environment for a clean dry-run style run: every external call would
succeed. -/
def wOk : ExternalWorld :=
  ⟨"/repo", false, Except.ok (), "head-pr",
   Except.ok [sampleComment 10, sampleComment 11],
   fun _ => Except.ok sampleFixed, fun i _ => "head-after-" ++ toString i⟩

/-- An environment whose agent invocation fails on the first comment and
would succeed on the second. -/
def wAbort : ExternalWorld :=
  ⟨"/repo", false, Except.ok (), "head-pr",
   Except.ok [sampleComment 10, sampleComment 11],
   fun i => if i == 0 then Except.error "agent crashed" else Except.ok sampleFixed,
   fun i _ => "head-after-" ++ toString i⟩

/-- An environment whose branch checkout fails. -/
def wCheckoutFail : ExternalWorld :=
  ⟨"/repo", false, Except.error "could not check out PR branch", "head-pr",
   Except.ok [sampleComment 10],
   fun _ => Except.ok sampleFixed, fun i _ => "head-after-" ++ toString i⟩

/-- An environment whose comment fetch fails. -/
def wFetchFail : ExternalWorld :=
  ⟨"/repo", false, Except.ok (), "head-pr",
   Except.error "could not fetch PR comments",
   fun _ => Except.ok sampleFixed, fun i _ => "head-after-" ++ toString i⟩

/-- A malformed PR URL used by the error-path witness. -/
def badUrl : String := "https://example.com/owner/repo/pull/12"

/-- An environment with uncommitted changes in the working directory and
otherwise successful external calls. -/
def wDirty : ExternalWorld :=
  ⟨"/repo", true, Except.ok (), "head-pr",
   Except.ok [sampleComment 10],
   fun _ => Except.ok sampleFixed, fun i _ => "head-after-" ++ toString i⟩

/-- The PR URL used by the closed evaluation theorems. -/
def sampleUrl : String := "https://github.com/o/r/pull/7"

/-! ## Parser lemmas -/

theorem dropLit_self_append (pat s : List Char) : dropLit pat (pat ++ s) = some s := by
  induction pat with
  | nil => rfl
  | cons p ps ih => simp [dropLit, ih]

theorem dropLit_eq_some {pat s r : List Char} (h : dropLit pat s = some r) : s = pat ++ r := by
  induction pat generalizing s with
  | nil =>
    simp only [dropLit, Option.some_inj] at h
    simpa using h
  | cons p ps ih =>
    cases s with
    | nil => simp [dropLit] at h
    | cons c cs =>
      by_cases hpc : p = c
      · subst hpc
        simp only [dropLit, if_pos rfl] at h
        simpa using ih h
      · simp [dropLit, hpc] at h

theorem dropLit_cons_ne {p c : Char} {ps cs : List Char} (h : p ≠ c) :
    dropLit (p :: ps) (c :: cs) = none := by
  simp [dropLit, h]

theorem takeSeg_append {seg rest : List Char} (h : noSlash seg = true) :
    takeSeg (seg ++ '/' :: rest) = some (seg, rest) := by
  induction seg with
  | nil => simp [takeSeg]
  | cons c cs ih =>
    simp only [noSlash, Bool.and_eq_true, Bool.not_eq_true', beq_eq_false_iff_ne] at h
    simp [takeSeg, h.1, ih h.2]

theorem takeSeg_eq_some {s seg rest : List Char} (h : takeSeg s = some (seg, rest)) :
    s = seg ++ '/' :: rest ∧ noSlash seg = true := by
  induction s generalizing seg rest with
  | nil => simp [takeSeg] at h
  | cons c cs ih =>
    by_cases hc : c = '/'
    · subst hc
      have hred : takeSeg ('/' :: cs) = some ([], cs) := by simp [takeSeg]
      rw [hred] at h
      simp only [Option.some_inj, Prod.mk.injEq] at h
      obtain ⟨h1, h2⟩ := h
      subst h1
      subst h2
      exact ⟨rfl, rfl⟩
    · simp only [takeSeg, if_neg hc] at h
      cases h2 : takeSeg cs with
      | none => rw [h2] at h; exact absurd h (by simp)
      | some pr =>
        obtain ⟨sg, rst⟩ := pr
        rw [h2] at h
        simp only [Option.some_inj, Prod.mk.injEq] at h
        obtain ⟨hseg, hrest⟩ := h
        obtain ⟨hcs, hns⟩ := ih (hrest ▸ h2)
        subst hseg
        constructor
        · simp [hcs]
        · simp [noSlash, hc, hns]

theorem dropTrailSlash_concat (xs : List Char) : dropTrailSlash (xs ++ ['/']) = xs := by
  simp [dropTrailSlash, List.getLast?_concat, List.dropLast_concat]

theorem dropTrailSlash_digits {xs : List Char} (h : xs.all Char.isDigit = true) :
    dropTrailSlash xs = xs := by
  rcases List.eq_nil_or_concat xs with hnil | ⟨ys, a, hc⟩
  · subst hnil; rfl
  · subst hc
    simp only [List.concat_eq_append, List.all_append, List.all_cons, Bool.and_eq_true] at h
    have ha : a ≠ '/' := by
      intro hEq
      rw [hEq] at h
      simpa using h.2.1
    simp [dropTrailSlash, List.getLast?_concat, ha]

theorem dropTrailSlash_inv {s ds : List Char} (h : dropTrailSlash s = ds) :
    s = ds ∨ s = ds ++ ['/'] := by
  by_cases hlast : s.getLast? = some '/'
  · rcases List.eq_nil_or_concat s with hnil | ⟨ys, a, hc⟩
    · subst hnil; simp at hlast
    · subst hc
      simp only [List.concat_eq_append] at hlast h ⊢
      rw [List.getLast?_concat] at hlast
      have ha : a = '/' := by simpa using hlast
      subst ha
      rw [dropTrailSlash_concat] at h
      right; rw [h]
  · left
    rw [← h]
    simp [dropTrailSlash, hlast]

theorem matchPRUrl_mk (ssl www slash : Bool) {owner repo digits : List Char}
    (ho : owner ≠ []) (hno : noSlash owner = true)
    (hr : repo ≠ []) (hnr : noSlash repo = true)
    (hd : digits ≠ []) (hdd : digits.all Char.isDigit = true) :
    matchPRUrl (mkUrlData ssl www owner repo digits slash) = some (owner, repo, digits) := by
  cases ssl <;> cases www <;> cases slash <;>
    simp [mkUrlData, matchPRUrl, httpChars, schemeSepChars, wwwChars, hostChars, pullChars,
      dropLit, takeSeg_append hno, takeSeg_append hnr, dropTrailSlash_concat,
      dropTrailSlash_digits hdd, ho, hr, hd, hdd]

theorem getD_drop_decomp (pat s : List Char) :
    ∃ b : Bool, s = (if b then pat else []) ++ ((dropLit pat s).getD s) := by
  cases h : dropLit pat s with
  | none => exact ⟨false, by simp⟩
  | some t => exact ⟨true, by simpa using dropLit_eq_some h⟩

theorem matchPRUrl_sound {s owner repo ds : List Char}
    (h : matchPRUrl s = some (owner, repo, ds)) :
    ∃ ssl www slash : Bool,
      s = mkUrlData ssl www owner repo ds slash ∧
      owner ≠ [] ∧ noSlash owner = true ∧ repo ≠ [] ∧ noSlash repo = true ∧
      ds ≠ [] ∧ ds.all Char.isDigit = true := by
  unfold matchPRUrl at h
  cases h1 : dropLit httpChars s with
  | none => simp [h1] at h
  | some s1 =>
  simp only [h1] at h
  cases h2 : dropLit schemeSepChars ((dropLit ['s'] s1).getD s1) with
  | none => simp [h2] at h
  | some s3 =>
  simp only [h2] at h
  cases h3 : dropLit hostChars ((dropLit wwwChars s3).getD s3) with
  | none => simp [h3] at h
  | some s5 =>
  simp only [h3] at h
  cases h4 : takeSeg s5 with
  | none => simp [h4] at h
  | some pr =>
  obtain ⟨owner1, s6⟩ := pr
  simp only [h4] at h
  by_cases ho : owner1 = []
  · simp [ho] at h
  simp only [if_neg ho] at h
  cases h5 : takeSeg s6 with
  | none => simp [h5] at h
  | some pr2 =>
  obtain ⟨repo1, s7⟩ := pr2
  simp only [h5] at h
  by_cases hrr : repo1 = []
  · simp [hrr] at h
  simp only [if_neg hrr] at h
  cases h6 : dropLit pullChars s7 with
  | none => simp [h6] at h
  | some s8 =>
  simp only [h6] at h
  by_cases hds : dropTrailSlash s8 = []
  · simp [hds] at h
  by_cases hall : (dropTrailSlash s8).all Char.isDigit = true
  · simp only [if_neg hds, if_pos hall, Option.some_inj, Prod.mk.injEq] at h
    obtain ⟨hoeq, hreq, hdeq⟩ := h
    subst hoeq
    subst hreq
    -- decompose the input string stage by stage
    have hs : s = httpChars ++ s1 := dropLit_eq_some h1
    obtain ⟨ssl, hssl⟩ := getD_drop_decomp ['s'] s1
    rw [dropLit_eq_some h2] at hssl
    obtain ⟨www, hwww⟩ := getD_drop_decomp wwwChars s3
    rw [dropLit_eq_some h3] at hwww
    obtain ⟨howner, hnowner⟩ := takeSeg_eq_some h4
    obtain ⟨hrepo, hnrepo⟩ := takeSeg_eq_some h5
    have hpull : s7 = pullChars ++ s8 := dropLit_eq_some h6
    have hslash : ∃ slash : Bool, s8 = ds ++ (if slash then ['/'] else []) := by
      rcases dropTrailSlash_inv hdeq with h8 | h8
      · exact ⟨false, by simpa using h8⟩
      · exact ⟨true, by simpa using h8⟩
    obtain ⟨slash, hsl⟩ := hslash
    refine ⟨ssl, www, slash, ?_, ho, hnowner, hrr, hnrepo, ?_, ?_⟩
    · rw [hs, hssl, hwww, howner, hrepo, hpull, hsl, mkUrlData]
    · rw [← hdeq]; exact hds
    · rw [← hdeq]; exact hall
  · simp [if_neg hds, hall] at h

theorem log2Fuel_le (fuel : Nat) : ∀ n : Nat, n ≠ 0 → 2 ^ log2Fuel fuel n ≤ n := by
  induction fuel with
  | zero => intro n hne; simp [log2Fuel]; omega
  | succ f ih =>
    intro n hne
    by_cases h2 : n < 2
    · have h1 : n = 1 := by omega
      simp [log2Fuel, h2, h1]
    · have hrec := ih (n / 2) (by omega)
      have hred : log2Fuel (f + 1) n = log2Fuel f (n / 2) + 1 := by
        simp [log2Fuel, h2]
      rw [hred, pow_succ]
      calc 2 ^ log2Fuel f (n / 2) * 2 ≤ n / 2 * 2 := Nat.mul_le_mul_right 2 hrec
        _ ≤ n := by omega

theorem roundDoubleFuel_small {fuel n : Nat} (h : n < 2 ^ 53) :
    roundDoubleFuel fuel n = n := by
  unfold roundDoubleFuel
  rw [if_pos h]

theorem roundDoubleFuel_ne_zero {fuel n : Nat} (h : n ≠ 0) :
    roundDoubleFuel fuel n ≠ 0 := by
  by_cases hs : n < 2 ^ 53
  · rw [roundDoubleFuel_small hs]
    exact h
  · have hpow : 0 < 2 ^ (log2Fuel fuel n - 52) := Nat.two_pow_pos _
    have hle : 2 ^ (log2Fuel fuel n - 52) ≤ n :=
      le_trans (Nat.pow_le_pow_right (by norm_num) (Nat.sub_le _ _)) (log2Fuel_le fuel n h)
    have hq : 0 < n / 2 ^ (log2Fuel fuel n - 52) := Nat.div_pos hle hpow
    unfold roundDoubleFuel
    rw [if_neg hs]
    split_ifs
    · exact Nat.ne_of_gt (Nat.mul_pos hq hpow)
    · exact Nat.ne_of_gt (Nat.mul_pos (by omega) hpow)
    · exact Nat.ne_of_gt (Nat.mul_pos hq hpow)
    · exact Nat.ne_of_gt (Nat.mul_pos (by omega) hpow)

theorem jsParseInt_small {ds : List Char} (h : digitsVal ds < 2 ^ 53) :
    jsParseInt ds = digitsVal ds := by
  simp [jsParseInt, roundDoubleFuel_small h]

theorem jsParseInt_eq_zero_iff (ds : List Char) :
    jsParseInt ds = 0 ↔ digitsVal ds = 0 := by
  constructor
  · intro h
    by_contra hne
    exact roundDoubleFuel_ne_zero hne h
  · intro h
    rw [jsParseInt, h]
    exact roundDoubleFuel_small (Nat.two_pow_pos 53)

theorem validParts_split {owner repo digits : List Char}
    (hv : validParts owner repo digits = true) :
    owner ≠ [] ∧ noSlash owner = true ∧ repo ≠ [] ∧ noSlash repo = true ∧
    digits ≠ [] ∧ digits.all Char.isDigit = true ∧ digitsVal digits ≠ 0 := by
  simp only [validParts, Bool.and_eq_true, Bool.not_eq_true', List.isEmpty_eq_false,
    bne_iff_ne, ne_eq] at hv
  tauto

theorem parsePRUrl_mk (ssl www slash : Bool) {owner repo digits : List Char}
    (hv : validParts owner repo digits = true) :
    parsePRUrl (mkPRUrl ssl www owner repo digits slash) =
      Except.ok ⟨String.mk owner, String.mk repo, jsParseInt digits⟩ := by
  obtain ⟨ho, hno, hr, hnr, hd, hdd, hpos⟩ := validParts_split hv
  have hm := matchPRUrl_mk ssl www slash ho hno hr hnr hd hdd
  have hdata : (mkPRUrl ssl www owner repo digits slash).data =
      mkUrlData ssl www owner repo digits slash := rfl
  have hjz : jsParseInt digits ≠ 0 := fun hh =>
    hpos ((jsParseInt_eq_zero_iff digits).mp hh)
  simp only [parsePRUrl, hdata, hm]
  simp [hjz]

theorem parse_ok_spec_valid {url : String} {p : ParsedPRUrl}
    (h : parsePRUrl url = Except.ok p) : SpecValidPRUrl url := by
  unfold parsePRUrl at h
  cases hm : matchPRUrl url.data with
  | none => simp [hm] at h
  | some tr =>
    obtain ⟨o, r, d⟩ := tr
    simp only [hm] at h
    by_cases hz : jsParseInt d = 0
    · simp [hz] at h
    · have hdz : ¬ digitsVal d = 0 := fun hh =>
        hz ((jsParseInt_eq_zero_iff d).mpr hh)
      obtain ⟨ssl, www, slash, hdata, ho, hno, hr, hnr, hd, hdd⟩ := matchPRUrl_sound hm
      refine ⟨ssl, www, slash, o, r, d, ?_, hdata⟩
      simp [validParts, ho, hno, hr, hnr, hd, hdd, hdz, List.isEmpty_eq_false]

theorem parseSucceeds_iff (url : String) : parseSucceeds url = true ↔ SpecValidPRUrl url := by
  constructor
  · intro h
    unfold parseSucceeds at h
    cases hp : parsePRUrl url with
    | error e => rw [hp] at h; simp at h
    | ok p => exact parse_ok_spec_valid hp
  · rintro ⟨ssl, www, slash, owner, repo, digits, hv, hdata⟩
    have hmk : url = mkPRUrl ssl www owner repo digits slash := by
      cases url with
      | mk d => exact congrArg String.mk hdata
    rw [hmk]
    simp [parseSucceeds, parsePRUrl_mk ssl www slash hv]

theorem parseFails_of_not_valid {url : String} (h : ¬ SpecValidPRUrl url) :
    parseSucceeds url = false := by
  cases hps : parseSucceeds url with
  | false => rfl
  | true => exact absurd ((parseSucceeds_iff url).mp hps) h

/-- Claim C2: `parsePRUrl` succeeds exactly on the strings of the accepted
grammar `scheme://[www.]github.com/owner/repo/pull/<digits>[/]` with a
positive PR number, and on every other string it fails by returning a
descriptive error value (the function is a pure total Lean function, so it
is total on malformed input by construction). -/
theorem parse_accepts_exactly_grammar :
    ∀ url : String,
      (parseSucceeds url = true ↔ SpecValidPRUrl url) ∧
      (SpecValidPRUrl url ∨ ∃ msg, parsePRUrl url = Except.error msg) := by
  intro url
  refine ⟨parseSucceeds_iff url, ?_⟩
  cases hp : parsePRUrl url with
  | ok p => exact Or.inl (parse_ok_spec_valid hp)
  | error msg => exact Or.inr ⟨msg, rfl⟩

/-- Claim C3 (amended): on every string of the accepted grammar whose PR
number is below `2 ^ 53` — the range of exactly representable doubles —
`parsePRUrl` returns exactly the owner, repo and PR-number components of the
decomposition, and formatting the parsed triple equals the normalized form
of the input URL; every string outside the grammar fails to parse. (For
larger PR numbers `parseInt` rounds to the nearest double, so the exactness
and round-trip half fails on the code: see the counterexample.) -/
theorem parse_round_trip :
    (∀ (ssl www slash : Bool) (owner repo digits : List Char),
      validParts owner repo digits = true →
      digitsVal digits < 2 ^ 53 →
        parsePRUrl (mkPRUrl ssl www owner repo digits slash) =
          Except.ok ⟨String.mk owner, String.mk repo, digitsVal digits⟩ ∧
        normalizedForm (mkPRUrl ssl www owner repo digits slash) =
          some (formatPRUrl ⟨String.mk owner, String.mk repo, digitsVal digits⟩)) ∧
    (∀ url : String, ¬ SpecValidPRUrl url → parseSucceeds url = false) := by
  constructor
  · intro ssl www slash owner repo digits hv hlt
    obtain ⟨ho, hno, hr, hnr, hd, hdd, hpos⟩ := validParts_split hv
    have hm := matchPRUrl_mk ssl www slash ho hno hr hnr hd hdd
    have hp := parsePRUrl_mk ssl www slash hv
    rw [jsParseInt_small hlt] at hp
    refine ⟨hp, ?_⟩
    have hdata : (mkPRUrl ssl www owner repo digits slash).data =
        mkUrlData ssl www owner repo digits slash := rfl
    simp only [normalizedForm, hdata, hm, formatPRUrl]
  · exact fun url h => parseFails_of_not_valid h

/-- Witness for C3 at `http://www.github.com/foo/bar/pull/0042/` (scheme
`http`, a `www.` prefix, a trailing slash and leading zeros, PR number 42
below `2 ^ 53`, normalizing to `https://github.com/foo/bar/pull/42`) and,
for the failure half, at the malformed URL
`https://example.com/owner/repo/pull/12`. -/
theorem parse_round_trip_witness :
    (validParts "foo".data "bar".data "0042".data = true ∧
      digitsVal "0042".data < 2 ^ 53 ∧
      parsePRUrl (mkPRUrl false true "foo".data "bar".data "0042".data true) =
        Except.ok ⟨"foo", "bar", 42⟩ ∧
      normalizedForm (mkPRUrl false true "foo".data "bar".data "0042".data true) =
        some "https://github.com/foo/bar/pull/42") ∧
    parseSucceeds "https://example.com/owner/repo/pull/12" = false := by
  constructor
  · refine ⟨by decide, by decide, ?_⟩
    have h := parse_round_trip.1 false true true "foo".data "bar".data "0042".data
      (by decide) (by decide)
    exact ⟨h.1, h.2⟩
  · exact parse_round_trip.2 "https://example.com/owner/repo/pull/12"
      (fun hv => by
        have := (parseSucceeds_iff "https://example.com/owner/repo/pull/12").mpr hv
        exact absurd this (by decide))

/-- Claim C3 counterexample: the grammar string
`https://github.com/o/r/pull/9007199254740993` is a valid PR URL (its PR
number is `2 ^ 53 + 1`), but the source's `parseInt` rounds the number to
the nearest double, `9007199254740992`; the parsed triple therefore differs
from the exact decomposition triple, and formatting the parsed triple yields
`…/pull/9007199254740992`, not the normalized form
`…/pull/9007199254740993` of the input. -/
theorem parse_rounding_counterexample :
    validParts "o".data "r".data "9007199254740993".data = true ∧
    digitsVal "9007199254740993".data = 9007199254740993 ∧
    parsePRUrl (mkPRUrl true false "o".data "r".data "9007199254740993".data false) =
      Except.ok ⟨"o", "r", 9007199254740992⟩ ∧
    ((9007199254740992 : Nat) == 9007199254740993) = false ∧
    normalizedForm (mkPRUrl true false "o".data "r".data "9007199254740993".data false) =
      some "https://github.com/o/r/pull/9007199254740993" ∧
    formatPRUrl ⟨"o", "r", 9007199254740992⟩ =
      "https://github.com/o/r/pull/9007199254740992" ∧
    ("https://github.com/o/r/pull/9007199254740992" ==
      "https://github.com/o/r/pull/9007199254740993") = false :=
  ⟨by decide, by decide, rfl, by decide, rfl, rfl, by decide⟩

/-! ## Comment Processor: the changed-iff-commit invariant -/

/-- Claim C1: every `ProcessingOutcome` the Comment Processor produces has
`changed = true` exactly when a commit identifier is recorded; `changed =
false` outcomes never carry one. -/
theorem outcome_changed_iff_commit (commentId : Nat) (headBefore : String) (resp : AgentResponse) :
    (processComment commentId headBefore resp).changed =
      (processComment commentId headBefore resp).commitId.isSome := by
  cases h : interpretAgentOutput headBefore resp <;> simp [processComment, outcomeOf, h]

/-! ## Comment Fetcher: grouped deterministic ordering -/

theorem map_rank_const {α : Type} (f : α → FetchedComment) (n : Nat)
    (hf : ∀ a, categoryRank (f a) = n) (l : List α) :
    (l.map f).map categoryRank = List.replicate l.length n := by
  induction l with
  | nil => rfl
  | cons a t ih => simp [hf, ih, List.replicate_succ]

theorem filter_rank_all {α : Type} (f : α → FetchedComment) (p : FetchedComment → Bool)
    (hf : ∀ a, p (f a) = true) (l : List α) : (l.map f).filter p = l.map f := by
  induction l with
  | nil => rfl
  | cons a t ih => simp [hf, ih]

theorem filter_rank_none {α : Type} (f : α → FetchedComment) (p : FetchedComment → Bool)
    (hf : ∀ a, p (f a) = false) (l : List α) : (l.map f).filter p = [] := by
  induction l with
  | nil => rfl
  | cons a t ih => simp [List.filter, hf, ih]

/-- Claim C6: `fetchAll` returns the discussion comments first, then the
review summaries, then the inline comments — the category ranks of its
output form a block sequence `0 … 0 1 … 1 2 … 2` — and each group is exactly
the corresponding category fetch, which preserves source API order by
construction; `fetchAll` is a pure function of the PR snapshot, so repeated
fetches of an unchanged snapshot return the identical sequence. -/
theorem fetchAll_grouped_ordering (s : PRSnapshot) :
    (fetchAll s).map categoryRank =
      List.replicate s.discussion.length 0 ++
      List.replicate (s.reviews.filter (fun r => !(r.body == ""))).length 1 ++
      List.replicate s.inlines.length 2 ∧
    (fetchAll s).filter (fun c => categoryRank c == 0) = fetchDiscussion s ∧
    (fetchAll s).filter (fun c => categoryRank c == 1) = fetchReviews s ∧
    (fetchAll s).filter (fun c => categoryRank c == 2) = fetchInlines s := by
  refine ⟨?_, ?_, ?_, ?_⟩
  · simp only [fetchAll, fetchDiscussion, fetchReviews, fetchInlines, List.map_append]
    rw [map_rank_const FetchedComment.discussion 0 (fun a => rfl),
      map_rank_const FetchedComment.reviewSummary 1 (fun a => rfl),
      map_rank_const (fun c => FetchedComment.inlineCode (normalizeInline c)) 2 (fun a => rfl)]
  · simp only [fetchAll, fetchDiscussion, fetchReviews, fetchInlines, List.filter_append]
    rw [filter_rank_all FetchedComment.discussion _ (fun a => rfl),
      filter_rank_none FetchedComment.reviewSummary _ (fun a => rfl),
      filter_rank_none (fun c => FetchedComment.inlineCode (normalizeInline c)) _ (fun a => rfl)]
    simp [fetchDiscussion]
  · simp only [fetchAll, fetchDiscussion, fetchReviews, fetchInlines, List.filter_append]
    rw [filter_rank_none FetchedComment.discussion _ (fun a => rfl),
      filter_rank_all FetchedComment.reviewSummary _ (fun a => rfl),
      filter_rank_none (fun c => FetchedComment.inlineCode (normalizeInline c)) _ (fun a => rfl)]
    simp [fetchReviews]
  · simp only [fetchAll, fetchDiscussion, fetchReviews, fetchInlines, List.filter_append]
    rw [filter_rank_none FetchedComment.discussion _ (fun a => rfl),
      filter_rank_none FetchedComment.reviewSummary _ (fun a => rfl),
      filter_rank_all (fun c => FetchedComment.inlineCode (normalizeInline c)) _ (fun a => rfl)]
    simp [fetchInlines]

/-! ## Orchestrator lemmas -/

theorem processLoop_dry (w : ExternalWorld) (cs : List PRComment) (i : Nat) (h : String) :
    processLoop w true cs i h = (dryLogs cs, none, h) := by
  induction cs generalizing i with
  | nil => rfl
  | cons c rest ih => simp [processLoop, dryLogs, ih]

theorem dryLogs_no_repo (cs : List PRComment) :
    (dryLogs cs).all (fun e => !touchesRepo e) = true := by
  induction cs with
  | nil => rfl
  | cons c rest ih => simpa [dryLogs, touchesRepo, isCheckoutEvent, isAgentEvent] using ih

theorem processLoop_no_push (w : ExternalWorld) (d : Bool) :
    ∀ (cs : List PRComment) (i : Nat) (h : String),
      hasPush (processLoop w d cs i h).1 = false := by
  intro cs
  induction cs with
  | nil => intro i h; rfl
  | cons c rest ih =>
    intro i h
    cases d with
    | true => simpa [processLoop, hasPush, List.any_append, isPushEvent] using ih (i + 1) h
    | false =>
      cases ha : w.agentRes i with
      | error e => simp [processLoop, ha, hasPush, List.any_append, isPushEvent]
      | ok res =>
        cases hf : res.fixed <;>
          simpa [processLoop, ha, hf, hasPush, List.any_append, isPushEvent] using
            ih (i + 1) (w.agentHead i h)

theorem processLoop_no_errPrint (w : ExternalWorld) (d : Bool) :
    ∀ (cs : List PRComment) (i : Nat) (h : String),
      hasErrPrint (processLoop w d cs i h).1 = false := by
  intro cs
  induction cs with
  | nil => intro i h; rfl
  | cons c rest ih =>
    intro i h
    cases d with
    | true => simpa [processLoop, hasErrPrint, List.any_append, isErrPrint] using ih (i + 1) h
    | false =>
      cases ha : w.agentRes i with
      | error e => simp [processLoop, ha, hasErrPrint, List.any_append, isErrPrint]
      | ok res =>
        cases hf : res.fixed <;>
          simpa [processLoop, ha, hf, hasErrPrint, List.any_append, isErrPrint] using
            ih (i + 1) (w.agentHead i h)

theorem afterCheckout_no_push (p : ParsedPRUrl) (opts : CliOptions) (w : ExternalWorld)
    (pre : List Event) (head : String) (hpre : hasPush pre = false) :
    hasPush (afterCheckout p opts w pre head).events = false := by
  unfold afterCheckout
  cases hf : w.fetchRes with
  | error e => simp_all [hasPush, List.any_append, isPushEvent]
  | ok comments =>
    rcases hl : processLoop w opts.dryRun comments 0 head with ⟨evs, err, h1⟩
    have hevs := processLoop_no_push w opts.dryRun comments 0 head
    rw [hl] at hevs
    cases err <;>
      simp_all [hasPush, List.any_append, isPushEvent]

theorem afterCheckout_exit (p : ParsedPRUrl) (opts : CliOptions) (w : ExternalWorld)
    (pre : List Event) (head : String) (hpre : hasErrPrint pre = false) :
    ((afterCheckout p opts w pre head).exitCode = 0 ∨
      (afterCheckout p opts w pre head).exitCode = 1) ∧
    ((afterCheckout p opts w pre head).exitCode = 1 ↔
      hasErrPrint (afterCheckout p opts w pre head).events = true) := by
  unfold afterCheckout
  cases hf : w.fetchRes with
  | error e => simp_all [hasErrPrint, List.any_append, isErrPrint]
  | ok comments =>
    rcases hl : processLoop w opts.dryRun comments 0 head with ⟨evs, err, h1⟩
    have hevs := processLoop_no_errPrint w opts.dryRun comments 0 head
    rw [hl] at hevs
    cases err with
    | none => simp_all [hasErrPrint, List.any_append, isErrPrint]
    | some e => simp_all [hasErrPrint, List.any_append, isErrPrint]

theorem afterCheckout_fetch_error (p : ParsedPRUrl) (opts : CliOptions) (w : ExternalWorld)
    (pre : List Event) (head : String) {e : String} (hf : w.fetchRes = Except.error e) :
    (afterCheckout p opts w pre head).exitCode = 1 ∧
    Event.printErr ("Error: " ++ e) ∈ (afterCheckout p opts w pre head).events := by
  unfold afterCheckout
  simp [hf]

theorem afterCheckout_loop_error (p : ParsedPRUrl) (opts : CliOptions) (w : ExternalWorld)
    (pre : List Event) (head : String) {cs : List PRComment} {e : String}
    (hf : w.fetchRes = Except.ok cs)
    (hl : (processLoop w opts.dryRun cs 0 head).2.1 = some e) :
    (afterCheckout p opts w pre head).exitCode = 1 ∧
    Event.printErr ("Error: " ++ e) ∈ (afterCheckout p opts w pre head).events := by
  unfold afterCheckout
  rcases hpl : processLoop w opts.dryRun cs 0 head with ⟨evs, err, h1⟩
  rw [hpl] at hl
  simp at hl
  subst hl
  simp [hf, hpl, List.mem_append]

/-- Claim C4: under `--dry-run` no checkout and no agent invocation appears in
the run trace — the only repository-touching operations — and the head commit
of the working directory is unchanged at the end of the run. -/
theorem dry_run_no_checkout_no_agent (prUrl : String) (opts : CliOptions)
    (w : ExternalWorld) (h0 : String) (hdry : opts.dryRun = true) :
    ((runAction prUrl opts w h0).events.all (fun e => !touchesRepo e)) = true ∧
    (runAction prUrl opts w h0).finalHead = h0 := by
  unfold runAction
  cases hp : parsePRUrl prUrl with
  | error msg => simp [touchesRepo, isCheckoutEvent, isAgentEvent]
  | ok p =>
    simp only [hdry, if_true]
    unfold afterCheckout
    cases hf : w.fetchRes with
    | error e => simp [touchesRepo, isCheckoutEvent, isAgentEvent]
    | ok comments =>
      constructor
      · have hd := dryLogs_no_repo comments
        simp_all [processLoop_dry, touchesRepo, isCheckoutEvent, isAgentEvent]
      · simp [hdry, processLoop_dry]

/-- Witness for C4: the dry run over the sample environment touches neither
the branch nor the agent and leaves the head commit `head-0` in place. -/
theorem dry_run_no_checkout_no_agent_witness :
    (⟨true, none⟩ : CliOptions).dryRun = true ∧
    (((runAction sampleUrl ⟨true, none⟩ wOk "head-0").events.all
        (fun e => !touchesRepo e)) = true ∧
      (runAction sampleUrl ⟨true, none⟩ wOk "head-0").finalHead = "head-0") :=
  ⟨rfl, dry_run_no_checkout_no_agent sampleUrl ⟨true, none⟩ wOk "head-0" rfl⟩

/-- Claim C7: on every execution path — all option combinations and all
responses of the external world, error paths included — the run trace never
contains a push to a remote. -/
theorem never_pushes (prUrl : String) (opts : CliOptions) (w : ExternalWorld) (h0 : String) :
    hasPush (runAction prUrl opts w h0).events = false := by
  unfold runAction
  cases hp : parsePRUrl prUrl with
  | error msg => simp [hasPush, isPushEvent]
  | ok p =>
    cases hd : opts.dryRun with
    | true =>
      simp only [if_true]
      exact afterCheckout_no_push p opts w _ h0 (by simp [hasPush, isPushEvent])
    | false =>
      simp only [Bool.false_eq_true, if_false]
      cases hc : w.checkoutRes with
      | error e => simp [hasPush, isPushEvent]
      | ok u =>
        exact afterCheckout_no_push p opts w _ w.checkoutHead
          (by simp [hasPush, isPushEvent])

/-- Claim C10: every failure that reaches the top level — invalid URL,
checkout failure, fetch failure, or an error thrown while processing any
single comment — takes the single catch path of src/index.ts, which prints
the error message and exits with code exactly 1: every run exits with code 0
or code 1, it exits with code 1 exactly when an error line was printed, and
each of the four failure kinds prints `Error: <message>` and exits 1, so
per-comment errors are fatal to the whole run. -/
theorem uniform_error_path (prUrl : String) (opts : CliOptions) (w : ExternalWorld) (h0 : String) :
    ((runAction prUrl opts w h0).exitCode = 0 ∨ (runAction prUrl opts w h0).exitCode = 1) ∧
    ((runAction prUrl opts w h0).exitCode = 1 ↔
      hasErrPrint (runAction prUrl opts w h0).events = true) ∧
    (∀ msg : String, parsePRUrl prUrl = Except.error msg →
      (runAction prUrl opts w h0).exitCode = 1 ∧
      Event.printErr ("Error: " ++ msg) ∈ (runAction prUrl opts w h0).events) ∧
    (∀ (p : ParsedPRUrl) (e : String),
      parsePRUrl prUrl = Except.ok p → opts.dryRun = false →
      w.checkoutRes = Except.error e →
      (runAction prUrl opts w h0).exitCode = 1 ∧
      Event.printErr ("Error: " ++ e) ∈ (runAction prUrl opts w h0).events) ∧
    (∀ (p : ParsedPRUrl) (e : String),
      parsePRUrl prUrl = Except.ok p →
      (opts.dryRun = true ∨ w.checkoutRes = Except.ok ()) →
      w.fetchRes = Except.error e →
      (runAction prUrl opts w h0).exitCode = 1 ∧
      Event.printErr ("Error: " ++ e) ∈ (runAction prUrl opts w h0).events) ∧
    (∀ (p : ParsedPRUrl) (cs : List PRComment) (e : String),
      parsePRUrl prUrl = Except.ok p → opts.dryRun = false →
      w.checkoutRes = Except.ok () → w.fetchRes = Except.ok cs →
      (processLoop w false cs 0 w.checkoutHead).2.1 = some e →
      (runAction prUrl opts w h0).exitCode = 1 ∧
      Event.printErr ("Error: " ++ e) ∈ (runAction prUrl opts w h0).events) := by
  unfold runAction
  cases hp : parsePRUrl prUrl with
  | error msg =>
    refine ⟨Or.inr rfl, ?_, ?_, ?_, ?_, ?_⟩
    · simp [hasErrPrint, List.any_append, isErrPrint]
    · intro msg1 hmsg
      have hm : msg = msg1 := by
        injection hmsg
      subst hm
      exact ⟨rfl, by simp⟩
    · intro p e hpp
      exact absurd hpp (by simp)
    · intro p e hpp
      exact absurd hpp (by simp)
    · intro p cs e hpp
      exact absurd hpp (by simp)
  | ok p =>
    cases hd : opts.dryRun with
    | true =>
      simp only [if_true]
      refine ⟨?_, ?_, ?_, ?_, ?_, ?_⟩
      · exact (afterCheckout_exit p opts w _ h0
          (by simp [hasErrPrint, isErrPrint])).1
      · exact (afterCheckout_exit p opts w _ h0
          (by simp [hasErrPrint, isErrPrint])).2
      · intro msg hmsg
        exact absurd hmsg (by simp)
      · intro p1 e hpp hdry
        exact absurd hdry (by simp)
      · intro p1 e hpp hor hfe
        exact afterCheckout_fetch_error p opts w _ h0 hfe
      · intro p1 cs e hpp hdry
        exact absurd hdry (by simp)
    | false =>
      simp only [Bool.false_eq_true, if_false]
      cases hc : w.checkoutRes with
      | error e =>
        refine ⟨Or.inr rfl, ?_, ?_, ?_, ?_, ?_⟩
        · simp [hasErrPrint, List.any_append, isErrPrint]
        · intro msg hmsg
          exact absurd hmsg (by simp)
        · intro p1 e1 hpp hdry hcc
          have he : e = e1 := by
            injection hcc
          subst he
          exact ⟨rfl, by simp⟩
        · intro p1 e1 hpp hor hfe
          rcases hor with hor | hor
          · exact absurd hor (by simp)
          · exact absurd hor (by simp)
        · intro p1 cs e1 hpp hdry hcc
          exact absurd hcc (by simp)
      | ok u =>
        refine ⟨?_, ?_, ?_, ?_, ?_, ?_⟩
        · exact (afterCheckout_exit p opts w _ w.checkoutHead
            (by simp [hasErrPrint, List.any_append, isErrPrint])).1
        · exact (afterCheckout_exit p opts w _ w.checkoutHead
            (by simp [hasErrPrint, List.any_append, isErrPrint])).2
        · intro msg hmsg
          exact absurd hmsg (by simp)
        · intro p1 e1 hpp hdry hcc
          exact absurd hcc (by simp)
        · intro p1 e1 hpp hor hfe
          exact afterCheckout_fetch_error p opts w _ w.checkoutHead hfe
        · intro p1 cs e1 hpp hdry hcc hff hloop
          rw [← hd] at hloop
          exact afterCheckout_loop_error p opts w _ w.checkoutHead hff hloop

/-- Witness for C10 exercising all four failure kinds: a malformed URL, a
checkout failure, a fetch failure and a per-comment agent failure each print
their `Error: <message>` line and exit with code 1. -/
theorem uniform_error_path_witness :
    ((runAction badUrl ⟨false, none⟩ wOk "head-0").exitCode = 1 ∧
      Event.printErr ("Error: " ++ ("Invalid GitHub PR URL: " ++ badUrl ++
          ". Expected format: https://github.com/owner/repo/pull/123")) ∈
        (runAction badUrl ⟨false, none⟩ wOk "head-0").events) ∧
    ((runAction sampleUrl ⟨false, none⟩ wCheckoutFail "head-0").exitCode = 1 ∧
      Event.printErr ("Error: " ++ "could not check out PR branch") ∈
        (runAction sampleUrl ⟨false, none⟩ wCheckoutFail "head-0").events) ∧
    ((runAction sampleUrl ⟨false, none⟩ wFetchFail "head-0").exitCode = 1 ∧
      Event.printErr ("Error: " ++ "could not fetch PR comments") ∈
        (runAction sampleUrl ⟨false, none⟩ wFetchFail "head-0").events) ∧
    ((runAction sampleUrl ⟨false, none⟩ wAbort "head-0").exitCode = 1 ∧
      Event.printErr ("Error: " ++ "agent crashed") ∈
        (runAction sampleUrl ⟨false, none⟩ wAbort "head-0").events) :=
  ⟨(uniform_error_path badUrl ⟨false, none⟩ wOk "head-0").2.2.1 _ rfl,
   (uniform_error_path sampleUrl ⟨false, none⟩ wCheckoutFail "head-0").2.2.2.1
     ⟨"o", "r", 7⟩ _ rfl rfl rfl,
   (uniform_error_path sampleUrl ⟨false, none⟩ wFetchFail "head-0").2.2.2.2.1
     ⟨"o", "r", 7⟩ _ rfl (Or.inr rfl) rfl,
   (uniform_error_path sampleUrl ⟨false, none⟩ wAbort "head-0").2.2.2.2.2
     ⟨"o", "r", 7⟩ [sampleComment 10, sampleComment 11] "agent crashed"
     rfl rfl rfl rfl rfl⟩

/-- Claim C5, evaluated on the code at the failing input: with two fetched
comments and an agent failure on the first, the implemented orchestrator does
NOT record the failure and continue — the thrown error reaches the top-level
catch, the run exits with code 1, and the second comment is never processed.
(The spec, the repository README and the planning document all require the
opposite: record the failure and continue to the next comment.) -/
theorem comment_failure_aborts_run :
    (runAction sampleUrl ⟨false, none⟩ wAbort "head-0").exitCode = 1 ∧
    hasAgentIdx (runAction sampleUrl ⟨false, none⟩ wAbort "head-0").events 0 = true ∧
    hasAgentIdx (runAction sampleUrl ⟨false, none⟩ wAbort "head-0").events 1 = false ∧
    hasErrPrint (runAction sampleUrl ⟨false, none⟩ wAbort "head-0").events = true := by
  decide

/-- Claim C8, evaluated on the code at the failing input: with uncommitted
changes in the working directory (`workingDirDirty = true`) and without any
skip-checkout option, the run does NOT fail before fetching — the implemented
orchestrator never consults the working-directory state: it checks out,
fetches, invokes the agent and exits 0 with no error printed. -/
theorem dirty_directory_is_not_checked :
    wDirty.workingDirDirty = true ∧
    hasFetch (runAction sampleUrl ⟨false, none⟩ wDirty "head-0").events = true ∧
    hasAgentIdx (runAction sampleUrl ⟨false, none⟩ wDirty "head-0").events 0 = true ∧
    (runAction sampleUrl ⟨false, none⟩ wDirty "head-0").exitCode = 0 ∧
    hasErrPrint (runAction sampleUrl ⟨false, none⟩ wDirty "head-0").events = false := by
  decide

/-- Claim C9, evaluated on the code: the CLI of src/index.ts declares exactly
the options `--dry-run` and `-d, --directory <path>`; no declared option
mentions `--skip-checkout`, so the flag the spec and the README document does
not exist in the implemented CLI. -/
theorem no_skip_checkout_option :
    programOptions.map CliOption.flags = ["--dry-run", "-d, --directory <path>"] ∧
    programOptions.all (fun o => !(hasSub "--skip-checkout".data o.flags.data)) = true := by
  decide
